import Mathlib

/-!
Verification development for the screenshot discovery-and-learning pipeline
(`scripts/vision_idle_poc.py`).  Strings are modelled as `List Char`
(Python `str`), floats as `ℚ` with exact comparisons, and the external
services (inference, embedding, vector store) as explicit oracle functions
or response records.  Every definition is a direct translation of the
corresponding Python function; doc comments name the source symbol.
-/

namespace VisionIdlePoc

/-- Convenience: the character list of a string literal. -/
def str (s : String) : List Char := s.data

/-- The single-quote character (written via its code point). -/
def sq : Char := Char.ofNat 39

/-- The double-quote character. -/
def dq : Char := Char.ofNat 34

/-- ASCII whitespace recognised by Python `str.strip()` (the pipeline only
handles ASCII label text, so the Unicode whitespace cases are irrelevant). -/
def isPySpace (c : Char) : Bool :=
  c = ' ' || c = '\t' || c = '\n' || c = '\r' || c = Char.ofNat 11 || c = Char.ofNat 12

/-- Remove the longest suffix of characters satisfying `p`
(the right half of Python `str.strip`). -/
def stripRight (p : Char → Bool) (l : List Char) : List Char :=
  (l.reverse.dropWhile p).reverse

/-- Python `s.strip(chars)` for a character class `p`: drop the matching
leading run, then the matching trailing run. -/
def pyStripP (p : Char → Bool) (l : List Char) : List Char :=
  stripRight p (l.dropWhile p)

/-- Python `s.strip()` (whitespace strip). -/
def pyStrip (l : List Char) : List Char :=
  pyStripP isPySpace l

/-- The strip stage of `_clean_label_list`:
`label.strip().strip(chr(34)).strip(chr(39))`. -/
def stripStage (s : List Char) : List Char :=
  pyStripP (fun c => c = sq) (pyStripP (fun c => c = dq) (pyStrip s))

/-- Regex class `[A-Za-z]`. -/
def isAsciiAlpha (c : Char) : Bool :=
  ('A' ≤ c && c ≤ 'Z') || ('a' ≤ c && c ≤ 'z')

/-- Regex class `[0-9]` / `\d` (ASCII). -/
def isDigitC (c : Char) : Bool :=
  '0' ≤ c && c ≤ '9'

/-- First mojibake marker dropped by `_clean_label_list` (U+00E2). -/
def mojA : Char := Char.ofNat 0xE2

/-- Second mojibake marker dropped by `_clean_label_list` (U+FFFD). -/
def mojB : Char := Char.ofNat 0xFFFD

/-- `len(re.findall(r"\d", l))` of `_clean_label_list`. -/
def digitCount (l : List Char) : ℕ :=
  (l.filter isDigitC).length

/-- `len(re.findall(r"[^A-Za-z0-9\s]", l))` of `_clean_label_list`. -/
def nonAlnumCount (l : List Char) : ℕ :=
  (l.filter (fun c => !(isAsciiAlpha c || isDigitC c || isPySpace c))).length

/-- Stray-symbol class `[~` of `_clean_label_list` (tilde, backtick, caret,
written via code points). -/
def strayChar (c : Char) : Bool :=
  c = '~' || c = Char.ofNat 96 || c = Char.ofNat 94

/-- The filter body of `_clean_label_list`: `true` iff the stripped label
survives every rejection test.  The two `> 0.4` float-ratio tests are the
exact rational comparisons `5·count > 2·len`. -/
def keepLabel (l : List Char) : Bool :=
  !l.isEmpty &&
  decide (4 ≤ l.length) &&
  l.any isAsciiAlpha &&
  !(!l.isEmpty && l.all (fun c => isDigitC c || c = '.')) &&
  !(l.contains mojA) &&
  !(l.contains mojB) &&
  !(decide (2 * l.length < 5 * digitCount l)) &&
  !(decide (2 * l.length < 5 * nonAlnumCount l)) &&
  !(l.any strayChar)

/-- Python `str.lower()` (ASCII case folding), the dedup key of
`_clean_label_list`. -/
def lowerStr (l : List Char) : List Char :=
  l.map Char.toLower

/-- The `seen`-set dedup loop at the end of `_clean_label_list`. -/
def dedupKeysAux (seen : List (List Char)) : List (List Char) → List (List Char)
  | [] => []
  | l :: ls =>
    if lowerStr l ∈ seen then dedupKeysAux seen ls
    else l :: dedupKeysAux (lowerStr l :: seen) ls

/-- Case-insensitive first-occurrence dedup of `_clean_label_list`. -/
def dedupKeys (ls : List (List Char)) : List (List Char) :=
  dedupKeysAux [] ls

/-- `_clean_label_list(labels)`: strip each label, apply the rejection
tests, then dedup case-insensitively keeping first occurrences. -/
def clean_label_list (labels : List (List Char)) : List (List Char) :=
  dedupKeys (labels.filterMap fun label =>
    let l := stripStage label
    if keepLabel l then some l else none)

/-- Python `str.split(sep)` for a one-character separator. -/
def splitOnChar (sep : Char) : List Char → List (List Char)
  | [] => [[]]
  | c :: t =>
    match splitOnChar sep t with
    | [] => [[c]]
    | h :: r => if c = sep then [] :: h :: r else (c :: h) :: r

/-- One parsed `label / role / purpose / confidence` record of the hybrid
mode (a dict in the source). -/
structure Item where
  label : List Char
  role : List Char
  purpose : List Char
  confidence : ℚ
deriving DecidableEq

/-- The `Label | role | purpose` line parser shared by the hybrid vision
tier (confidence 0.8, lines 497-508) and the first text-model fallback tier
(confidence 0.7, lines 528-539): keep lines containing a pipe, split on the
pipe, strip each part, require at least three parts, and re-join the tail
as the purpose. -/
def parse_pipe_items (conf : ℚ) (resp : List Char) : List Item :=
  (splitOnChar '\n' resp).filterMap fun line =>
    if ('|' : Char) ∈ line then
      match (splitOnChar '|' line).map pyStrip with
      | p0 :: p1 :: p2 :: rest =>
        some ⟨p0, p1, pyStrip (List.intercalate (str " | ") (p2 :: rest)), conf⟩
      | _ => none
    else none

/-- The hybrid-mode validation loop (source lines 541-563): re-strip the
fields, coerce the role to `other` only when it still contains a pipe, and
drop items with an empty label. -/
def validate_items (items : List Item) : List Item :=
  items.filterMap fun item =>
    let label := pyStrip item.label
    let role0 := pyStrip item.role
    let role := if ('|' : Char) ∈ role0 then str "other" else role0
    let purpose := pyStrip item.purpose
    if label = [] then none
    else some ⟨label, role, purpose, item.confidence⟩

/-- The enumerated role set of the hybrid prompt
(`button, tab, menu, link, input, folder, window, other`). -/
def allowedRoles : List (List Char) :=
  [str "button", str "tab", str "menu", str "link", str "input",
    str "folder", str "window", str "other"]

/-- The structured-array salvage tier (source lines 583-598): given the
triples matched by the `[r'\[".",".","."\]']` scan, strip the label, strip
and lowercase the role, coerce roles outside the enumerated set to `other`,
drop empty labels, and score 0.7. -/
def salvage_triplets (ts : List (List Char × List Char × List Char)) : List Item :=
  ts.filterMap fun t =>
    let label := pyStrip t.1
    let role := lowerStr (pyStrip t.2.1)
    let purpose := pyStrip t.2.2
    if label = [] then none
    else some ⟨label, if role ∈ allowedRoles then role else str "other", purpose, mkRat 7 10⟩

/-- One normalized direct-mode candidate element, as computed by the
per-element header of the main loop (source lines 663-681): synonym keys
already resolved and all fields stripped. -/
structure Elem where
  label : List Char
  role : List Char
  purpose : List Char
  confidence : ℚ
deriving DecidableEq

/-- The external services of one run: the embedding capability, the store
search (best-match score for a vector), the single-label purpose-inference
capability, plus the run-constant screen summary and timestamp string. -/
structure Env where
  embed : List Char → List ℚ
  search : List ℚ → ℚ
  purposeInfer : List Char → List Char
  screen_summary : List Char
  now : List Char

/-- The command-line thresholds of `main` that the novelty gate consumes. -/
structure Config where
  mem_threshold : ℚ
  vision_threshold : ℚ
  min_questions : ℕ
  max_elements : ℕ

/-- The payload dict built for `_qdrant_save_local` (source lines 723-735). -/
structure Payload where
  goal : List Char
  action_type : List Char
  target_text : List Char
  fact : List Char
  description : List Char
  role : List Char
  purpose : List Char
  source : List Char
  confidence : ℚ
  timestamp : List Char
deriving DecidableEq

/-- One store write: the saved vector and its payload. -/
structure Write where
  vector : List ℚ
  payload : Payload
deriving DecidableEq

/-- One entry of the `learned` report list. -/
structure LearnedItem where
  label : List Char
  role : List Char
  purpose : List Char
deriving DecidableEq

/-- The mutable state of the direct-mode element loop: the dedup set and
counter, the two report lists, the store-write trace, and the number of
purpose-inference calls issued past the gate. -/
structure RunState where
  seen : List (List Char)
  processed : ℕ
  questions : List (List Char)
  learned : List LearnedItem
  writes : List Write
  purposeCalls : ℕ
deriving DecidableEq

/-- `_normalize_goal(purpose, label)`. -/
def normalize_goal (purpose label : List Char) : List Char :=
  match pyStrip purpose with
  | [] => str "Use " ++ label
  | c :: t => c.toUpper :: t

/-- The degenerate answers rejected by the purpose-inference follow-up. -/
def degeneratePurposes : List (List Char) :=
  [str "unknown", str "unsure", str "i" ++ sq :: str "m not sure"]

/-- The purpose-inference follow-up (source lines 702-715): strip the
response, strip double quotes, and keep it unless empty or degenerate. -/
def resolve_purpose (env : Env) (label : List Char) : List Char :=
  let pr := pyStripP (fun c => c = dq) (pyStrip (env.purposeInfer label))
  if pr ≠ [] ∧ lowerStr pr ∉ degeneratePurposes then pr else []

/-- The semantic query embedded before the store search (source line 693). -/
def element_query (e : Elem) : List Char :=
  if e.purpose = [] then str "Element: " ++ e.label ++ str "."
  else str "Element: " ++ e.label ++ str ". Purpose: " ++ e.purpose ++ str "."

/-- The best-match score consulted by the novelty gate (source lines
695-696): an empty embedding short-circuits to score `0.0`. -/
def gate_score (env : Env) (e : Elem) : ℚ :=
  let vector := env.embed (element_query e)
  if vector = [] then 0 else env.search vector

/-- The richer goal+label+purpose+summary string embedded before a store
write (source lines 719-721). -/
def save_query (env : Env) (e : Elem) (purpose : List Char) : List Char :=
  str "Goal: " ++ normalize_goal purpose e.label ++ str ". Element: " ++ e.label ++
    str ". Purpose: " ++ purpose ++ str ". Screen: " ++ env.screen_summary ++ str "."

/-- The payload submitted on admission (source lines 723-735). -/
def save_payload (env : Env) (e : Elem) (purpose : List Char) : Payload :=
  { goal := normalize_goal purpose e.label
    action_type := str "click"
    target_text := e.label
    fact := purpose
    description := env.screen_summary
    role := e.role
    purpose := purpose
    source := str "vision_mvp"
    confidence := e.confidence
    timestamp := env.now }

/-- The question string enqueued for unresolved elements. -/
def question_text (label : List Char) : List Char :=
  str "What does \"" ++ label ++ str "\" do?"

/-- Everything the direct-mode loop does to one element after the
dedup/limit header (source lines 693-740): embed-and-search, the novelty
gate, the optional purpose-inference follow-up, and either an admission
(store write when the save embedding is non-empty, plus a learned entry)
or a capped question. -/
def gate_step (env : Env) (cfg : Config) (st : RunState) (e : Elem) : RunState :=
  if cfg.mem_threshold ≤ gate_score env e then st
  else
    let purpose := if e.purpose = [] then resolve_purpose env e.label else e.purpose
    let st1 := if e.purpose = [] then
      { st with purposeCalls := st.purposeCalls + 1 } else st
    if purpose ≠ [] ∧ cfg.vision_threshold ≤ e.confidence then
      let sv := env.embed (save_query env e purpose)
      let st2 := if sv ≠ [] then
        { st1 with writes := st1.writes ++ [⟨sv, save_payload env e purpose⟩] } else st1
      { st2 with learned := st2.learned ++
          [⟨e.label, if e.role = [] then str "other" else e.role, purpose⟩] }
    else if st1.questions.length < cfg.min_questions then
      { st1 with questions := st1.questions ++ [question_text e.label] }
    else st1

/-- The direct-mode element loop (source lines 662-740): skip empty labels,
dedup case-insensitively, count processed elements and break past
`max_elements`, then run the gate logic of `gate_step`. -/
def run_loop (env : Env) (cfg : Config) (st : RunState) : List Elem → RunState
  | [] => st
  | e :: es =>
    if e.label = [] then run_loop env cfg st es
    else if lowerStr e.label ∈ st.seen then run_loop env cfg st es
    else
      let st1 := { st with seen := lowerStr e.label :: st.seen,
                           processed := st.processed + 1 }
      if cfg.max_elements < st1.processed then st1
      else run_loop env cfg (gate_step env cfg st1 e) es

/-- The loop state at entry of the element loop. -/
def init_state : RunState :=
  ⟨[], 0, [], [], [], 0⟩

/-- One full direct-mode run over the parsed element list. -/
def run_pipeline (env : Env) (cfg : Config) (elements : List Elem) : RunState :=
  run_loop env cfg init_state elements

/-- The store write (if any) that the gate logic performs for one element;
`none` when the gate skips, the element is questioned instead, or the save
embedding comes back empty. -/
def elem_write (env : Env) (cfg : Config) (e : Elem) : Option Write :=
  if cfg.mem_threshold ≤ gate_score env e then none
  else
    let purpose := if e.purpose = [] then resolve_purpose env e.label else e.purpose
    if purpose ≠ [] ∧ cfg.vision_threshold ≤ e.confidence then
      let sv := env.embed (save_query env e purpose)
      if sv ≠ [] then some ⟨sv, save_payload env e purpose⟩ else none
    else none

/-- The sublist of elements that reach the embed-and-search gate, i.e.
survive the empty-label skip, the case-insensitive dedup and the
`max_elements` break of the loop header. -/
def gateElemsAux (maxE : ℕ) (seen : List (List Char)) (p : ℕ) : List Elem → List Elem
  | [] => []
  | e :: es =>
    if e.label = [] then gateElemsAux maxE seen p es
    else if lowerStr e.label ∈ seen then gateElemsAux maxE seen p es
    else if maxE < p + 1 then []
    else e :: gateElemsAux maxE (lowerStr e.label :: seen) (p + 1) es

/-- The gate-reaching elements of a whole run. -/
def gate_elems (cfg : Config) (elements : List Elem) : List Elem :=
  gateElemsAux cfg.max_elements [] 0 elements

/-- The elements that proceed past the novelty gate to the ask-the-model
path (best-match score below `memory_threshold`). -/
def ask_path (env : Env) (cfg : Config) (elements : List Elem) : List Elem :=
  (gate_elems cfg elements).filter fun e => gate_score env e < cfg.mem_threshold

/-- A string containing neither quote character; on such input the two
quote-strip passes of the sanitizer are inert. -/
def NoQuote (s : List Char) : Prop :=
  dq ∉ s ∧ sq ∉ s

instance (s : List Char) : Decidable (NoQuote s) := by
  unfold NoQuote
  infer_instance

/-- Python `int()` truncation toward zero on an exact rational (the source
applies it to nonnegative float quantities). -/
def pyInt (q : ℚ) : ℤ :=
  if 0 ≤ q then ⌊q⌋ else -⌊-q⌋

/-- One sub-tile rectangle `(tx0, ty0, tx1, ty1)` appended by `_tile_roi`. -/
structure Tile where
  x0 : ℤ
  y0 : ℤ
  x1 : ℤ
  y1 : ℤ
deriving DecidableEq

/-- `tile_w = w / grid` of `_tile_roi` (exact rational; `mkRat` also agrees
with float division for `grid = 0`, where both give `0`). -/
def tileW (x0 x1 : ℤ) (grid : ℕ) : ℚ :=
  mkRat (x1 - x0) grid

/-- `pad_x = int(tile_w * overlap / 2)` of `_tile_roi` (same for `pad_y`
on the other axis). -/
def padOf (x0 x1 : ℤ) (grid : ℕ) (overlap : ℚ) : ℤ :=
  pyInt (tileW x0 x1 grid * overlap / (mkRat 2 1))

/-- `int(x0 + c * tile_w)` of `_tile_roi`: the unpadded cell boundary of
column (or row) `c`. -/
def bndOf (x0 x1 : ℤ) (grid : ℕ) (c : ℕ) : ℤ :=
  pyInt ((x0 : ℚ) + (c : ℚ) * tileW x0 x1 grid)

/-- The sub-tile of `_tile_roi` at row `r`, column `c`: the cell boundaries
padded by `pad` and clamped to the parent box. -/
def tileAt (x0 y0 x1 y1 : ℤ) (grid : ℕ) (overlap : ℚ) (r c : ℕ) : Tile :=
  ⟨max x0 (bndOf x0 x1 grid c - padOf x0 x1 grid overlap),
    max y0 (bndOf y0 y1 grid r - padOf y0 y1 grid overlap),
    min x1 (bndOf x0 x1 grid (c + 1) + padOf x0 x1 grid overlap),
    min y1 (bndOf y0 y1 grid (r + 1) + padOf y0 y1 grid overlap)⟩

/-- `_tile_roi(box, grid, overlap)`: the row-major list of the `grid×grid`
sub-tiles. -/
def tile_roi (x0 y0 x1 y1 : ℤ) (grid : ℕ) (overlap : ℚ) : List Tile :=
  (List.range grid).flatMap fun r =>
    (List.range grid).map fun c => tileAt x0 y0 x1 y1 grid overlap r c

/-- A rational point lies inside (the closure of) a tile. -/
def tileContains (t : Tile) (px py : ℚ) : Prop :=
  (t.x0 : ℚ) ≤ px ∧ px ≤ (t.x1 : ℚ) ∧ (t.y0 : ℚ) ≤ py ∧ py ≤ (t.y1 : ℚ)

/-- Width of the horizontal intersection strip of two tiles. -/
def xOverlap (t u : Tile) : ℤ :=
  min t.x1 u.x1 - max t.x0 u.x0

/-- Height of the vertical intersection strip of two tiles. -/
def yOverlap (t u : Tile) : ℤ :=
  min t.y1 u.y1 - max t.y0 u.y0

/-- An HTTP response of the generate endpoint: status code and the decoded
`response` field (`.get` default `""`). -/
structure GenResult where
  status : ℕ
  response : List Char
deriving DecidableEq

/-- An HTTP response of the embeddings endpoint: status code and the
decoded `embedding` field (`.get` default `[]`). -/
structure EmbedResult where
  status : ℕ
  embedding : List ℚ
deriving DecidableEq

/-- An HTTP response of the store search endpoint: status code and the
scores of the decoded `result` hits (the unused payload halves are
omitted). -/
structure SearchResult where
  status : ℕ
  result : List ℚ
deriving DecidableEq

/-- An HTTP response of the store upsert endpoint (only the status code is
consulted). -/
structure SaveResult where
  status : ℕ
deriving DecidableEq

/-- `_ollama_generate_local` as a function of the transport response:
`raise_for_status()` raises (`Except.error`) on every 4xx/5xx status —
there is no handler in `main`, so an error is fatal to the run. -/
def ollama_generate_local (r : GenResult) : Except ℕ (List Char) :=
  if 400 ≤ r.status then Except.error r.status else Except.ok r.response

/-- `_ollama_embed_local` as a function of the transport response. -/
def ollama_embed_local (r : EmbedResult) : Except ℕ (List ℚ) :=
  if 400 ≤ r.status then Except.error r.status else Except.ok r.embedding

/-- `_qdrant_search_local` as a function of the transport response: a 404
yields the default score `0.0`, any other 4xx/5xx raises, an empty result
list yields `0.0`, otherwise the first hit score is returned. -/
def qdrant_search_local (r : SearchResult) : Except ℕ ℚ :=
  if r.status = 404 then Except.ok 0
  else if 400 ≤ r.status then Except.error r.status
  else Except.ok (r.result.headD 0)

/-- `_qdrant_save_local` as a function of the transport response: 404 and
400 are swallowed, any other 4xx/5xx raises. -/
def qdrant_save_local_resp (r : SaveResult) : Except ℕ Unit :=
  if r.status = 404 ∨ r.status = 400 then Except.ok ()
  else if 400 ≤ r.status then Except.error r.status
  else Except.ok ()

/-- `_run_tesseract_tsv` as a function of the subprocess outcome (`none` =
the call raised): every failure is caught and maps to the empty string. -/
def run_tesseract_tsv (outcome : Option (ℤ × List Char)) : List Char :=
  match outcome with
  | none => []
  | some (code, out) => if code ≠ 0 then [] else out

/-- One point of the store upsert request body built by
`_qdrant_save_local`: `id = int(time.time() * 1000)` from the wall-clock
seconds `t`, never from the record content. -/
structure UpsertPoint where
  id : ℤ
  vector : List ℚ
  payload : Payload
deriving DecidableEq

/-- The upsert point built by `_qdrant_save_local` at wall-clock time `t`
(seconds). -/
def qdrant_save_point (t : ℚ) (vector : List ℚ) (payload : Payload) : UpsertPoint :=
  ⟨pyInt (t * mkRat 1000 1), vector, payload⟩

/-- The external vector store as a map from point id to stored point;
upsert overwrites the record at the request id (the store interface's
upsert semantics). -/
def upsert (store : ℤ → Option UpsertPoint) (p : UpsertPoint) : ℤ → Option UpsertPoint :=
  fun j => if j = p.id then some p else store j

/-- A concrete well-behaved environment: embeddings of dimension 3,
best-match score 0.3, purpose inference returning nothing. -/
def env0 : Env :=
  ⟨fun _ => [1, 2, 3], fun _ => mkRat 3 10, fun _ => [], [], []⟩

/-- A concrete environment whose store search always scores 0.95. -/
def env1 : Env :=
  ⟨fun _ => [1], fun _ => mkRat 95 100, fun _ => [], [], []⟩

/-- The default thresholds of `main`: `memory_threshold 0.88`,
`vision_threshold 0.72`, `min_questions 20`, `max_elements 40`. -/
def cfg0 : Config :=
  ⟨mkRat 88 100, mkRat 72 100, 20, 40⟩

/-- The stub element of the spec scenario: label `Save`, role `button`,
purpose `Saves the file`, confidence 0.9. -/
def e0 : Elem :=
  ⟨str "Save", str "button", str "Saves the file", mkRat 9 10⟩

/-- An empty payload record (used only to instantiate witnesses). -/
def payload0 : Payload :=
  ⟨[], [], [], [], [], [], [], [], mkRat 0 1, []⟩

end VisionIdlePoc

namespace VisionIdlePoc

theorem dropWhile_dropWhile (p : Char → Bool) (l : List Char) :
    (l.dropWhile p).dropWhile p = l.dropWhile p := by
  cases h : l.dropWhile p with
  | nil => rfl
  | cons a u =>
    have hh := List.head?_dropWhile_not p l
    rw [h] at hh
    simp only [List.head?_cons] at hh
    exact List.dropWhile_cons_of_neg (by simp [hh])

theorem length_dropWhile_le_self (p : Char → Bool) (l : List Char) :
    (l.dropWhile p).length ≤ l.length := by
  induction l with
  | nil => simp
  | cons a t ih =>
    rw [List.dropWhile_cons]
    split
    · exact Nat.le_trans ih (Nat.le_succ _)
    · simp

theorem head_not_of_dropWhile_eq_self {p : Char → Bool} {l t : List Char} {a : Char}
    (hm : l.dropWhile p = l) (hl : l = a :: t) : p a = false := by
  subst hl
  by_contra hne
  have hpa : p a = true := by
    cases h : p a
    · exact absurd h hne
    · rfl
  rw [List.dropWhile_cons_of_pos hpa] at hm
  have := length_dropWhile_le_self p t
  rw [hm] at this
  simp at this

theorem stripRight_stripRight (p : Char → Bool) (l : List Char) :
    stripRight p (stripRight p l) = stripRight p l := by
  unfold stripRight
  rw [List.reverse_reverse, dropWhile_dropWhile]

theorem stripRight_append_eq (p : Char → Bool) (l : List Char) :
    stripRight p l ++ (l.reverse.takeWhile p).reverse = l := by
  unfold stripRight
  calc (l.reverse.dropWhile p).reverse ++ (l.reverse.takeWhile p).reverse
      = (l.reverse.takeWhile p ++ l.reverse.dropWhile p).reverse := by
        rw [List.reverse_append]
    _ = l.reverse.reverse := by rw [List.takeWhile_append_dropWhile]
    _ = l := List.reverse_reverse l

theorem dropWhile_stripRight_of {p : Char → Bool} {l : List Char}
    (hm : l.dropWhile p = l) :
    (stripRight p l).dropWhile p = stripRight p l := by
  cases hsr : stripRight p l with
  | nil => rfl
  | cons a u =>
    have hsplit := stripRight_append_eq p l
    rw [hsr] at hsplit
    have hpa : p a = false :=
      head_not_of_dropWhile_eq_self hm (by rw [← hsplit]; rfl)
    exact List.dropWhile_cons_of_neg (by simp [hpa])

theorem pyStripP_dropWhile (p : Char → Bool) (l : List Char) :
    (pyStripP p l).dropWhile p = pyStripP p l :=
  dropWhile_stripRight_of (dropWhile_dropWhile p l)

theorem pyStripP_idem (p : Char → Bool) (l : List Char) :
    pyStripP p (pyStripP p l) = pyStripP p l := by
  show stripRight p ((pyStripP p l).dropWhile p) = pyStripP p l
  rw [pyStripP_dropWhile]
  show stripRight p (stripRight p (l.dropWhile p)) = pyStripP p l
  rw [stripRight_stripRight]
  rfl

theorem dropWhile_eq_self_of_all {p : Char → Bool} {l : List Char}
    (h : ∀ c ∈ l, p c = false) : l.dropWhile p = l := by
  cases l with
  | nil => rfl
  | cons a t =>
    exact List.dropWhile_cons_of_neg (by simp [h a (List.mem_cons_self a t)])

theorem pyStripP_eq_self_of_all {p : Char → Bool} {l : List Char}
    (h : ∀ c ∈ l, p c = false) : pyStripP p l = l := by
  unfold pyStripP stripRight
  rw [dropWhile_eq_self_of_all h,
    dropWhile_eq_self_of_all (fun c hc => h c (List.mem_reverse.mp hc)),
    List.reverse_reverse]

theorem mem_of_mem_dropWhile {p : Char → Bool} {l : List Char} {a : Char}
    (h : a ∈ l.dropWhile p) : a ∈ l := by
  have := List.takeWhile_append_dropWhile p l
  rw [← this]
  exact List.mem_append_right _ h

theorem mem_of_mem_pyStripP {p : Char → Bool} {l : List Char} {a : Char}
    (h : a ∈ pyStripP p l) : a ∈ l := by
  unfold pyStripP stripRight at h
  rw [List.mem_reverse] at h
  exact mem_of_mem_dropWhile (List.mem_reverse.mp (mem_of_mem_dropWhile h))

theorem noQuote_of_mem_subset {s t : List Char}
    (hsub : ∀ c ∈ t, c ∈ s) (h : NoQuote s) : NoQuote t :=
  ⟨fun hc => h.1 (hsub dq hc), fun hc => h.2 (hsub sq hc)⟩

theorem stripStage_eq_pyStrip_of_noQuote {s : List Char} (h : NoQuote s) :
    stripStage s = pyStrip s := by
  unfold stripStage
  have hq : NoQuote (pyStrip s) :=
    noQuote_of_mem_subset (fun c hc => mem_of_mem_pyStripP hc) h
  rw [pyStripP_eq_self_of_all (p := fun c => c = dq)
    (fun c hc => by simp; exact fun hcdq => hq.1 (hcdq ▸ hc))]
  exact pyStripP_eq_self_of_all (p := fun c => c = sq)
    (fun c hc => by simp; exact fun hcsq => hq.2 (hcsq ▸ hc))

theorem stripStage_fix_of_noQuote {s : List Char} (h : NoQuote s) :
    stripStage (stripStage s) = stripStage s := by
  rw [stripStage_eq_pyStrip_of_noQuote h]
  have hq : NoQuote (pyStrip s) :=
    noQuote_of_mem_subset (fun c hc => mem_of_mem_pyStripP hc) h
  rw [stripStage_eq_pyStrip_of_noQuote hq]
  exact pyStripP_idem _ _

theorem dedupKeysAux_idem (ls : List (List Char)) :
    ∀ seen, dedupKeysAux seen (dedupKeysAux seen ls) = dedupKeysAux seen ls := by
  induction ls with
  | nil => intro seen; rfl
  | cons l ls ih =>
    intro seen
    by_cases h : lowerStr l ∈ seen
    · rw [dedupKeysAux, if_pos h, ih]
    · rw [dedupKeysAux, if_neg h, dedupKeysAux, if_neg h, ih]

theorem mem_of_mem_dedupKeysAux {ls : List (List Char)} {a : List Char} :
    ∀ {seen}, a ∈ dedupKeysAux seen ls → a ∈ ls := by
  induction ls with
  | nil => intro seen h; exact absurd h (by simp [dedupKeysAux])
  | cons l ls ih =>
    intro seen h
    rw [dedupKeysAux] at h
    split at h
    · exact List.mem_cons_of_mem _ (ih h)
    · cases List.mem_cons.mp h with
      | inl he => exact he ▸ List.mem_cons_self l ls
      | inr ht => exact List.mem_cons_of_mem _ (ih ht)

theorem filterMap_clean_fixed {ls : List (List Char)}
    (h : ∀ l ∈ ls, stripStage l = l ∧ keepLabel l = true) :
    (ls.filterMap fun label =>
      let l := stripStage label
      if keepLabel l then some l else none) = ls := by
  induction ls with
  | nil => rfl
  | cons l ls ih =>
    have hl := h l (List.mem_cons_self l ls)
    rw [List.filterMap_cons]
    simp only [hl.1, hl.2, if_true]
    rw [ih (fun x hx => h x (List.mem_cons_of_mem _ hx))]

theorem mem_clean_filter {labels : List (List Char)} {x : List Char}
    (hx : x ∈ labels.filterMap fun label =>
      let l := stripStage label
      if keepLabel l then some l else none) :
    ∃ s ∈ labels, x = stripStage s ∧ keepLabel x = true := by
  rcases List.mem_filterMap.mp hx with ⟨s, hs, hfs⟩
  by_cases hk : keepLabel (stripStage s) = true
  · simp only [hk, if_true] at hfs
    cases hfs
    exact ⟨s, hs, rfl, hk⟩
  · simp only [hk, if_false] at hfs
    simp at hfs

/-- Counterexample for C4.  The Label Sanitizer is not idempotent:
on the single raw label `"  abcd"` (with literal double quotes) the first
pass strips the quotes and keeps the exposed leading spaces, and only the
second pass removes them, so `clean(clean(x)) ≠ clean(x)`. -/
theorem clean_label_list_not_idempotent :
    clean_label_list (clean_label_list [str "\"  abcd\""]) ≠
      clean_label_list [str "\"  abcd\""] := by
  decide

/-- Amended C4.  The Label Sanitizer `_clean_label_list` is idempotent
on every input list whose strings contain no single- or double-quote
character (so quote-stripping can expose no new strippable characters):
`clean(clean(x)) = clean(x)`.  The counterexample shows the unrestricted
claim fails. -/
theorem clean_label_list_idempotent_of_quote_free
    (labels : List (List Char)) (h : ∀ s ∈ labels, NoQuote s) :
    clean_label_list (clean_label_list labels) = clean_label_list labels := by
  have hF : ∀ x ∈ (labels.filterMap fun label =>
      let l := stripStage label
      if keepLabel l then some l else none),
      stripStage x = x ∧ keepLabel x = true := by
    intro x hx
    rcases mem_clean_filter hx with ⟨s, hs, hxs, hk⟩
    refine ⟨?_, hk⟩
    rw [hxs]
    exact stripStage_fix_of_noQuote (h s hs)
  have hD : ∀ x ∈ clean_label_list labels,
      stripStage x = x ∧ keepLabel x = true := by
    intro x hx
    exact hF x (mem_of_mem_dedupKeysAux hx)
  show dedupKeys ((clean_label_list labels).filterMap _) = clean_label_list labels
  rw [filterMap_clean_fixed hD]
  show dedupKeysAux [] (dedupKeysAux [] _) = dedupKeysAux [] _
  rw [dedupKeysAux_idem]

/-- Witness for the amended C4 theorem at a concrete quote-free input. -/
theorem clean_label_list_idempotent_witness :
    NoQuote (str "Open") ∧ NoQuote (str "open ") ∧ NoQuote (str "OPEN") ∧
      clean_label_list (clean_label_list [str "Open", str "open ", str "OPEN"]) =
        clean_label_list [str "Open", str "open ", str "OPEN"] :=
  ⟨by decide, by decide, by decide,
    clean_label_list_idempotent_of_quote_free _ (by decide)⟩

end VisionIdlePoc


namespace VisionIdlePoc

/-- Claim C1.  Direct mode: when the best-match score returned for the
element's query is at least `memory_threshold`, the loop body `continue`s
at the gate — no purpose-inference call, no store write, no question, no
learned entry; the run state is unchanged past the gate. -/
theorem gate_skip_no_effect (env : Env) (cfg : Config) (st : RunState) (e : Elem)
    (h : cfg.mem_threshold ≤ gate_score env e) :
    gate_step env cfg st e = st := by
  unfold gate_step
  rw [if_pos h]

/-- Witness for C1: score 0.95 against the default threshold 0.88. -/
theorem gate_skip_no_effect_witness :
    cfg0.mem_threshold ≤ gate_score env1 e0 ∧
      gate_step env1 cfg0 init_state e0 = init_state :=
  ⟨by decide, gate_skip_no_effect env1 cfg0 init_state e0 (by decide)⟩

/-- Claim C2.  Direct mode: an element that passes the novelty gate with a
non-empty (stripped) purpose and confidence at least `vision_threshold`,
and whose save embedding succeeds, is admitted with exactly one store
write; the payload's `action.target_text` is the element's label and its
`goal` is the purpose with the first character uppercased (the
`"Use <label>"` form only arises for an empty purpose, per
`_normalize_goal`); the element is appended to the learned list, the
questions list is untouched, and no purpose-inference follow-up is
issued. -/
theorem gate_admit_single_write (env : Env) (cfg : Config) (st : RunState) (e : Elem)
    (hscore : gate_score env e < cfg.mem_threshold)
    (hp : e.purpose ≠ [])
    (hps : pyStrip e.purpose = e.purpose)
    (hconf : cfg.vision_threshold ≤ e.confidence)
    (hsv : env.embed (save_query env e e.purpose) ≠ []) :
    gate_step env cfg st e =
      { st with
          writes := st.writes ++
            [⟨env.embed (save_query env e e.purpose), save_payload env e e.purpose⟩],
          learned := st.learned ++
            [⟨e.label, if e.role = [] then str "other" else e.role, e.purpose⟩] } ∧
    (save_payload env e e.purpose).target_text = e.label ∧
    ∀ c t, e.purpose = c :: t →
      (save_payload env e e.purpose).goal = c.toUpper :: t := by
  refine ⟨?_, rfl, ?_⟩
  · unfold gate_step
    rw [if_neg (not_le.mpr hscore)]
    simp only [hp, if_neg, ite_false, ne_eq, not_false_eq_true, and_true, hconf, if_pos,
      ite_true, hsv]
  · intro c t hct
    show normalize_goal e.purpose e.label = c.toUpper :: t
    unfold normalize_goal
    rw [hps, hct]

/-- Witness for C2 at the spec's stub scenario (score 0.3, confidence 0.9,
default thresholds). -/
theorem gate_admit_single_write_witness :
    gate_score env0 e0 < cfg0.mem_threshold ∧
    gate_step env0 cfg0 init_state e0 =
      { init_state with
          writes := init_state.writes ++
            [⟨env0.embed (save_query env0 e0 e0.purpose), save_payload env0 e0 e0.purpose⟩],
          learned := init_state.learned ++
            [⟨e0.label, if e0.role = [] then str "other" else e0.role, e0.purpose⟩] } ∧
    (save_payload env0 e0 e0.purpose).target_text = e0.label ∧
    (save_payload env0 e0 e0.purpose).goal = 'S'.toUpper :: str "aves the file" :=
  ⟨by decide,
    (gate_admit_single_write env0 cfg0 init_state e0
      (by decide) (by decide) (by decide) (by decide) (by decide)).1,
    (gate_admit_single_write env0 cfg0 init_state e0
      (by decide) (by decide) (by decide) (by decide) (by decide)).2.1,
    (gate_admit_single_write env0 cfg0 init_state e0
      (by decide) (by decide) (by decide) (by decide) (by decide)).2.2 'S'
      (str "aves the file") (by decide)⟩

end VisionIdlePoc

namespace VisionIdlePoc

theorem gate_step_writes (env : Env) (cfg : Config) (st : RunState) (e : Elem) :
    (gate_step env cfg st e).writes = st.writes ++ (elem_write env cfg e).toList ∧
    (gate_step env cfg st e).seen = st.seen ∧
    (gate_step env cfg st e).processed = st.processed := by
  unfold gate_step elem_write
  by_cases h1 : cfg.mem_threshold ≤ gate_score env e
  · simp [h1]
  · rw [if_neg h1, if_neg h1]
    by_cases h4 : e.purpose = []
    · simp only [h4, ite_true]
      by_cases h2 : resolve_purpose env e.label ≠ [] ∧ cfg.vision_threshold ≤ e.confidence
      · rw [if_pos h2, if_pos h2]
        by_cases h3 : env.embed (save_query env e (resolve_purpose env e.label)) = []
        · simp [h3]
        · simp [h3]
      · rw [if_neg h2, if_neg h2]
        by_cases h5 : st.questions.length < cfg.min_questions
        · simp [h5]
        · simp [h5]
    · simp only [h4, ite_false]
      by_cases h2 : e.purpose ≠ [] ∧ cfg.vision_threshold ≤ e.confidence
      · rw [if_pos h2, if_pos h2]
        by_cases h3 : env.embed (save_query env e e.purpose) = []
        · simp [h3]
        · simp [h3]
      · rw [if_neg h2, if_neg h2]
        by_cases h5 : st.questions.length < cfg.min_questions
        · simp [h5]
        · simp [h5]

theorem run_loop_writes (env : Env) (cfg : Config) (es : List Elem) :
    ∀ st : RunState,
      (run_loop env cfg st es).writes =
        st.writes ++
          (gateElemsAux cfg.max_elements st.seen st.processed es).filterMap
            (elem_write env cfg) := by
  induction es with
  | nil => intro st; simp [run_loop, gateElemsAux]
  | cons e es ih =>
    intro st
    rw [run_loop, gateElemsAux]
    by_cases h1 : e.label = []
    · rw [if_pos h1, if_pos h1, ih]
    · rw [if_neg h1, if_neg h1]
      by_cases h2 : lowerStr e.label ∈ st.seen
      · rw [if_pos h2, if_pos h2, ih]
      · rw [if_neg h2, if_neg h2]
        by_cases h3 : cfg.max_elements < st.processed + 1
        · simp only [h3, ite_true, List.filterMap_nil, List.append_nil]
        · simp only [h3, ite_false]
          rw [ih]
          have hw := gate_step_writes env cfg
            { st with seen := lowerStr e.label :: st.seen,
                      processed := st.processed + 1 } e
          rw [hw.1, hw.2.1, hw.2.2]
          rw [List.filterMap_cons]
          cases hfe : elem_write env cfg e <;>
            simp [Option.toList, hfe]

theorem length_filterMap_mono {α β : Type} {f g : α → Option β} (l : List α)
    (h : ∀ a ∈ l, (f a).isSome = true → (g a).isSome = true) :
    (l.filterMap f).length ≤ (l.filterMap g).length := by
  induction l with
  | nil => simp
  | cons a l ih =>
    have ih' := ih (fun x hx => h x (List.mem_cons_of_mem _ hx))
    rw [List.filterMap_cons, List.filterMap_cons]
    cases hf : f a with
    | none =>
      cases hg : g a with
      | none => exact ih'
      | some b => simp only [List.length_cons]; omega
    | some b =>
      cases hg : g a with
      | none =>
        exfalso
        have := h a (List.mem_cons_self a l) (by simp [hf])
        rw [hg] at this
        simp at this
      | some c => simp only [List.length_cons]; omega

theorem length_filter_mono {α : Type} {p q : α → Bool} (l : List α)
    (h : ∀ a ∈ l, p a = true → q a = true) :
    (l.filter p).length ≤ (l.filter q).length := by
  induction l with
  | nil => simp
  | cons a l ih =>
    have ih' := ih (fun x hx => h x (List.mem_cons_of_mem _ hx))
    rw [List.filter_cons, List.filter_cons]
    by_cases hp : p a = true
    · have hq := h a (List.mem_cons_self a l) hp
      rw [if_pos hp, if_pos hq]
      simp only [List.length_cons]
      omega
    · by_cases hq : q a = true
      · rw [if_neg hp, if_pos hq]
        exact Nat.le_trans ih' (Nat.le_succ _)
      · rw [if_neg hp, if_neg hq]
        exact ih'

theorem elem_write_isSome_mono (env : Env) (cfg : Config) (e : Elem) (θ : ℚ)
    (hθ : cfg.vision_threshold ≤ θ)
    (h : (elem_write env { cfg with vision_threshold := θ } e).isSome = true) :
    (elem_write env cfg e).isSome = true := by
  unfold elem_write at h ⊢
  by_cases h1 : cfg.mem_threshold ≤ gate_score env e
  · rw [if_pos h1] at h
    simp at h
  · rw [if_neg h1] at h ⊢
    simp only at h ⊢
    by_cases h2 : (if e.purpose = [] then resolve_purpose env e.label else e.purpose) ≠ [] ∧
        θ ≤ e.confidence
    · rw [if_pos h2] at h
      rw [if_pos ⟨h2.1, le_trans hθ h2.2⟩]
      exact h
    · rw [if_neg h2] at h
      simp at h

/-- Claim C3.  Novelty-gate monotonicity for a fixed environment (fixed
similarity scores and confidences) and fixed element list: raising
`memory_threshold` never decreases the number of elements that proceed
past the gate to the ask-the-model path, and raising `vision_threshold`
never increases the number of store writes of the run. -/
theorem novelty_gate_monotone :
    (∀ (env : Env) (cfg : Config) (elements : List Elem) (θ : ℚ),
      cfg.mem_threshold ≤ θ →
        (ask_path env cfg elements).length ≤
          (ask_path env { cfg with mem_threshold := θ } elements).length) ∧
    (∀ (env : Env) (cfg : Config) (elements : List Elem) (θ : ℚ),
      cfg.vision_threshold ≤ θ →
        (run_pipeline env { cfg with vision_threshold := θ } elements).writes.length ≤
          (run_pipeline env cfg elements).writes.length) := by
  constructor
  · intro env cfg elements θ hθ
    unfold ask_path
    have hg : gate_elems { cfg with mem_threshold := θ } elements =
        gate_elems cfg elements := rfl
    rw [hg]
    exact length_filter_mono _ fun e _ hlt => by
      simp only [decide_eq_true_eq] at hlt ⊢
      exact lt_of_lt_of_le hlt hθ
  · intro env cfg elements θ hθ
    unfold run_pipeline
    rw [run_loop_writes, run_loop_writes]
    simp only [init_state, List.nil_append]
    have hg : gateElemsAux ({ cfg with vision_threshold := θ } : Config).max_elements [] 0
        elements = gateElemsAux cfg.max_elements [] 0 elements := rfl
    rw [hg]
    exact length_filterMap_mono _ fun e _ hsome =>
      elem_write_isSome_mono env cfg e θ hθ hsome

/-- Witness for C3: both monotonicity inequalities at the stub scenario. -/
theorem novelty_gate_monotone_witness :
    cfg0.mem_threshold ≤ mkRat 9 10 ∧ cfg0.vision_threshold ≤ mkRat 8 10 ∧
    (ask_path env0 cfg0 [e0]).length ≤
      (ask_path env0 { cfg0 with mem_threshold := mkRat 9 10 } [e0]).length ∧
    (run_pipeline env0 { cfg0 with vision_threshold := mkRat 8 10 } [e0]).writes.length ≤
      (run_pipeline env0 cfg0 [e0]).writes.length :=
  ⟨by decide, by decide,
    novelty_gate_monotone.1 env0 cfg0 [e0] (mkRat 9 10) (by decide),
    novelty_gate_monotone.2 env0 cfg0 [e0] (mkRat 8 10) (by decide)⟩

end VisionIdlePoc

namespace VisionIdlePoc

theorem lowerStr_ne_nil {l : List Char} (h : l ≠ []) : lowerStr l ≠ [] := by
  unfold lowerStr
  simp [h]

theorem gateElemsAux_label_ne (maxE : ℕ) (es : List Elem) :
    ∀ seen p, ∀ e ∈ gateElemsAux maxE seen p es, e.label ≠ [] := by
  induction es with
  | nil => intro seen p e he; exact absurd he (by simp [gateElemsAux])
  | cons a es ih =>
    intro seen p e he
    rw [gateElemsAux] at he
    by_cases h1 : a.label = []
    · rw [if_pos h1] at he
      exact ih seen p e he
    · rw [if_neg h1] at he
      by_cases h2 : lowerStr a.label ∈ seen
      · rw [if_pos h2] at he
        exact ih seen p e he
      · rw [if_neg h2] at he
        by_cases h3 : maxE < p + 1
        · rw [if_pos h3] at he
          exact absurd he (by simp)
        · rw [if_neg h3] at he
          cases List.mem_cons.mp he with
          | inl hea => exact hea ▸ h1
          | inr het => exact ih _ _ e het

theorem gateElemsAux_key_notin (maxE : ℕ) (es : List Elem) :
    ∀ seen p, ∀ e ∈ gateElemsAux maxE seen p es, lowerStr e.label ∉ seen := by
  induction es with
  | nil => intro seen p e he; exact absurd he (by simp [gateElemsAux])
  | cons a es ih =>
    intro seen p e he
    rw [gateElemsAux] at he
    by_cases h1 : a.label = []
    · rw [if_pos h1] at he
      exact ih seen p e he
    · rw [if_neg h1] at he
      by_cases h2 : lowerStr a.label ∈ seen
      · rw [if_pos h2] at he
        exact ih seen p e he
      · rw [if_neg h2] at he
        by_cases h3 : maxE < p + 1
        · rw [if_pos h3] at he
          exact absurd he (by simp)
        · rw [if_neg h3] at he
          cases List.mem_cons.mp he with
          | inl hea => exact hea ▸ h2
          | inr het =>
            intro hmem
            exact ih _ _ e het (List.mem_cons_of_mem _ hmem)

theorem gateElemsAux_pairwise (maxE : ℕ) (es : List Elem) :
    ∀ seen p, (gateElemsAux maxE seen p es).Pairwise
      (fun a b => lowerStr a.label ≠ lowerStr b.label) := by
  induction es with
  | nil => intro seen p; simp [gateElemsAux]
  | cons a es ih =>
    intro seen p
    rw [gateElemsAux]
    by_cases h1 : a.label = []
    · rw [if_pos h1]; exact ih seen p
    · rw [if_neg h1]
      by_cases h2 : lowerStr a.label ∈ seen
      · rw [if_pos h2]; exact ih seen p
      · rw [if_neg h2]
        by_cases h3 : maxE < p + 1
        · rw [if_pos h3]; simp
        · rw [if_neg h3]
          refine List.Pairwise.cons ?_ (ih _ _)
          intro e he heq
          exact gateElemsAux_key_notin maxE es _ _ e he
            (heq ▸ List.mem_cons_self _ _)

theorem gateElemsAux_sublist (maxE : ℕ) (es : List Elem) :
    ∀ seen p, List.Sublist (gateElemsAux maxE seen p es) es := by
  induction es with
  | nil => intro seen p; simp [gateElemsAux]
  | cons a es ih =>
    intro seen p
    rw [gateElemsAux]
    by_cases h1 : a.label = []
    · rw [if_pos h1]; exact (ih seen p).cons a
    · rw [if_neg h1]
      by_cases h2 : lowerStr a.label ∈ seen
      · rw [if_pos h2]; exact (ih seen p).cons a
      · rw [if_neg h2]
        by_cases h3 : maxE < p + 1
        · rw [if_pos h3]; exact List.nil_sublist _
        · rw [if_neg h3]; exact (ih _ _).cons₂ a

theorem gateElemsAux_first_occurrence (maxE : ℕ) (es : List Elem) :
    ∀ seen p, ∀ e ∈ gateElemsAux maxE seen p es,
      es.find? (fun x => lowerStr x.label == lowerStr e.label) = some e := by
  induction es with
  | nil => intro seen p e he; exact absurd he (by simp [gateElemsAux])
  | cons a es ih =>
    intro seen p e he
    have hkey : e.label ≠ [] :=
      gateElemsAux_label_ne maxE (a :: es) seen p e he
    rw [gateElemsAux] at he
    by_cases h1 : a.label = []
    · rw [if_pos h1] at he
      rw [List.find?_cons]
      have hne : (lowerStr a.label == lowerStr e.label) = false := by
        rw [beq_eq_false_iff_ne]
        rw [h1]
        intro hcontra
        exact lowerStr_ne_nil hkey (by rw [← hcontra]; rfl)
      rw [hne]
      exact ih seen p e he
    · rw [if_neg h1] at he
      by_cases h2 : lowerStr a.label ∈ seen
      · rw [if_pos h2] at he
        have hnotin := gateElemsAux_key_notin maxE es seen p e he
        rw [List.find?_cons]
        have hne : (lowerStr a.label == lowerStr e.label) = false := by
          rw [beq_eq_false_iff_ne]
          intro hcontra
          exact hnotin (hcontra ▸ h2)
        rw [hne]
        exact ih seen p e he
      · rw [if_neg h2] at he
        by_cases h3 : maxE < p + 1
        · rw [if_pos h3] at he
          exact absurd he (by simp)
        · rw [if_neg h3] at he
          cases List.mem_cons.mp he with
          | inl hea =>
            subst hea
            rw [List.find?_cons]
            have : (lowerStr e.label == lowerStr e.label) = true := by
              rw [beq_iff_eq]
            rw [this]
          | inr het =>
            have hnotin := gateElemsAux_key_notin maxE es _ _ e het
            rw [List.find?_cons]
            have hne : (lowerStr a.label == lowerStr e.label) = false := by
              rw [beq_eq_false_iff_ne]
              intro hcontra
              exact hnotin (hcontra ▸ List.mem_cons_self _ _)
            rw [hne]
            exact ih _ _ e het

theorem validate_items_label_ne (items : List Item) :
    ∀ it ∈ validate_items items, it.label ≠ [] := by
  intro it hit
  rcases List.mem_filterMap.mp hit with ⟨item, _, hf⟩
  simp only at hf
  by_cases hl : pyStrip item.label = []
  · rw [if_pos hl] at hf
    cases hf
  · rw [if_neg hl] at hf
    cases hf
    exact hl

/-- Counterexample for C8.  In hybrid mode the validated item list is not
deduplicated: a model response repeating the label `Save` on two triplet
lines yields two validated items with identical labels, so labels at the
output stage are not pairwise distinct case-insensitively. -/
theorem hybrid_duplicate_labels :
    (validate_items (parse_pipe_items (mkRat 8 10)
        (str "Save | button | opens\nSave | button | saves"))).map Item.label =
      [str "Save", str "Save"] ∧
    ¬ ((validate_items (parse_pipe_items (mkRat 8 10)
        (str "Save | button | opens\nSave | button | saves"))).map
          (fun it => lowerStr it.label)).Nodup := by
  decide

/-- Amended C8.  In direct mode the elements reaching the novelty
gate have non-empty labels, are pairwise distinct case-insensitively, form
an order-preserving sublist of the input, and each kept element is the
first input element with its case-folded label.  In hybrid mode validated
items still have non-empty labels, but (per the counterexample) duplicates
are not removed. -/
theorem gate_labels_amended :
    (∀ (cfg : Config) (elements : List Elem),
      (∀ e ∈ gate_elems cfg elements, e.label ≠ []) ∧
      (gate_elems cfg elements).Pairwise
        (fun a b => lowerStr a.label ≠ lowerStr b.label) ∧
      List.Sublist (gate_elems cfg elements) elements ∧
      (∀ e ∈ gate_elems cfg elements,
        elements.find? (fun x => lowerStr x.label == lowerStr e.label) = some e)) ∧
    (∀ items : List Item, ∀ it ∈ validate_items items, it.label ≠ []) := by
  refine ⟨fun cfg elements => ⟨?_, ?_, ?_, ?_⟩, validate_items_label_ne⟩
  · exact gateElemsAux_label_ne cfg.max_elements elements [] 0
  · exact gateElemsAux_pairwise cfg.max_elements elements [] 0
  · exact gateElemsAux_sublist cfg.max_elements elements [] 0
  · exact gateElemsAux_first_occurrence cfg.max_elements elements [] 0

/-- Witness for the amended C8 theorem at concrete inputs. -/
theorem gate_labels_amended_witness :
    e0.label ≠ [] ∧
      (⟨str "Save", str "banana", str "does things", mkRat 8 10⟩ : Item).label ≠ [] :=
  ⟨(gate_labels_amended.1 cfg0 [e0]).1 e0 (by decide),
    gate_labels_amended.2
      (parse_pipe_items (mkRat 8 10) (str "Save | banana | does things"))
      ⟨str "Save", str "banana", str "does things", mkRat 8 10⟩ (by decide)⟩

end VisionIdlePoc

namespace VisionIdlePoc

/-- Counterexample for C7.  The hybrid pipe-triplet tiers do not coerce
roles outside the enumerated set: the response line
`Save | banana | does things` survives validation with role `banana`,
which is not in the enumerated role set. -/
theorem validate_items_keeps_foreign_role :
    validate_items (parse_pipe_items (mkRat 8 10) (str "Save | banana | does things")) =
      [⟨str "Save", str "banana", str "does things", mkRat 8 10⟩] ∧
    str "banana" ∉ allowedRoles := by
  decide

/-- Amended C7.  Every validated hybrid item has a non-empty label,
and its role never contains a pipe character — the only coercion the
vision/text triplet tiers perform (`if "|" in role: role = "other"`).
Only the structured-array salvage tier enforces membership of the
enumerated role set (besides non-empty labels). -/
theorem validated_items_amended :
    (∀ items : List Item, ∀ it ∈ validate_items items,
      it.label ≠ [] ∧ ('|' : Char) ∉ it.role) ∧
    (∀ ts : List (List Char × List Char × List Char), ∀ it ∈ salvage_triplets ts,
      it.label ≠ [] ∧ it.role ∈ allowedRoles) := by
  constructor
  · intro items it hit
    rcases List.mem_filterMap.mp hit with ⟨item, _, hf⟩
    simp only at hf
    by_cases hl : pyStrip item.label = []
    · rw [if_pos hl] at hf
      cases hf
    · rw [if_neg hl] at hf
      cases hf
      refine ⟨hl, ?_⟩
      by_cases hr : ('|' : Char) ∈ pyStrip item.role
      · rw [if_pos hr]
        show ('|' : Char) ∉ str "other"
        decide
      · rw [if_neg hr]
        exact hr
  · intro ts it hit
    rcases List.mem_filterMap.mp hit with ⟨t, _, hf⟩
    simp only at hf
    by_cases hl : pyStrip t.1 = []
    · rw [if_pos hl] at hf
      cases hf
    · rw [if_neg hl] at hf
      cases hf
      refine ⟨hl, ?_⟩
      by_cases hr : lowerStr (pyStrip t.2.1) ∈ allowedRoles
      · rw [if_pos hr]
        exact hr
      · rw [if_neg hr]
        show str "other" ∈ allowedRoles
        decide

/-- Witness for the amended C7 theorem at concrete items of both tiers. -/
theorem validated_items_amended_witness :
    ((⟨str "Save", str "banana", str "does things", mkRat 8 10⟩ : Item).label ≠ [] ∧
      ('|' : Char) ∉ (⟨str "Save", str "banana", str "does things", mkRat 8 10⟩ : Item).role) ∧
    ((⟨str "Save", str "other", str "does things", mkRat 7 10⟩ : Item).label ≠ [] ∧
      (⟨str "Save", str "other", str "does things", mkRat 7 10⟩ : Item).role ∈ allowedRoles) :=
  ⟨validated_items_amended.1
      (parse_pipe_items (mkRat 8 10) (str "Save | banana | does things"))
      ⟨str "Save", str "banana", str "does things", mkRat 8 10⟩ (by decide),
    validated_items_amended.2
      [(str "Save", str "banana", str "does things")]
      ⟨str "Save", str "other", str "does things", mkRat 7 10⟩ (by decide)⟩

/-- Counterexample for C9.  No dimensionality validation precedes a store
write: with an embedding service returning 3-dimensional vectors, the
pipeline happily issues a store write whose vector has length 3, not 768
(the source checks only `if save_vector:`, i.e. non-emptiness). -/
theorem write_dimension_unchecked :
    ((run_pipeline env0 cfg0 [e0]).writes.map fun w => w.vector.length) = [3] ∧
      (3 : ℕ) ≠ 768 := by
  decide

/-- Amended C9.  The only check the pipeline performs on an embedding
vector before a store write is non-emptiness: every write of every run
carries a non-empty vector, of whatever dimension the embedding service
returned. -/
theorem writes_nonempty_vector (env : Env) (cfg : Config) (elements : List Elem)
    (w : Write) (h : w ∈ (run_pipeline env cfg elements).writes) :
    w.vector ≠ [] := by
  unfold run_pipeline at h
  rw [run_loop_writes] at h
  simp only [init_state, List.nil_append] at h
  rcases List.mem_filterMap.mp h with ⟨e, _, hf⟩
  unfold elem_write at hf
  by_cases h1 : cfg.mem_threshold ≤ gate_score env e
  · rw [if_pos h1] at hf
    cases hf
  · rw [if_neg h1] at hf
    simp only at hf
    by_cases h2 : (if e.purpose = [] then resolve_purpose env e.label else e.purpose) ≠ [] ∧
        cfg.vision_threshold ≤ e.confidence
    · rw [if_pos h2] at hf
      by_cases h3 : env.embed (save_query env e
          (if e.purpose = [] then resolve_purpose env e.label else e.purpose)) ≠ []
      · rw [if_pos h3] at hf
        cases hf
        exact h3
      · rw [if_neg h3] at hf
        cases hf
    · rw [if_neg h2] at hf
      cases hf

/-- Witness for the amended C9 theorem at the 3-dimensional write of the
stub run. -/
theorem writes_nonempty_vector_witness :
    (⟨[1, 2, 3], save_payload env0 e0 (str "Saves the file")⟩ : Write) ∈
        (run_pipeline env0 cfg0 [e0]).writes ∧
      (⟨[1, 2, 3], save_payload env0 e0 (str "Saves the file")⟩ : Write).vector ≠ [] :=
  ⟨by decide,
    writes_nonempty_vector env0 cfg0 [e0]
      ⟨[1, 2, 3], save_payload env0 e0 (str "Saves the file")⟩ (by decide)⟩

end VisionIdlePoc

namespace VisionIdlePoc

/-- Counterexample for C6.  Transport failures are not universally
swallowed: a 500 response makes the inference call, the store upsert and
the embedding call all raise (`raise_for_status`), and `main` installs no
handler, so the run aborts — contradicting the claim that every such call
returns an empty/default result and continues. -/
theorem generate_error_raises :
    ollama_generate_local ⟨500, []⟩ = Except.error 500 ∧
    qdrant_save_local_resp ⟨500⟩ = Except.error 500 ∧
    ollama_embed_local ⟨503, []⟩ = Except.error 503 :=
  ⟨rfl, rfl, rfl⟩

/-- Amended C6.  Only specific failures yield a default result: a 404
on store search returns score `0.0`, 404/400 on store upsert are
swallowed, and any text-recognition failure (exception or non-zero exit)
yields the empty string.  Every other 4xx/5xx status on the inference,
embedding, search or upsert calls raises and, with no handler in `main`,
aborts the run. -/
theorem error_handling_amended :
    (∀ r : SearchResult, r.status = 404 → qdrant_search_local r = Except.ok 0) ∧
    (∀ r : SaveResult, r.status = 404 ∨ r.status = 400 →
      qdrant_save_local_resp r = Except.ok ()) ∧
    (run_tesseract_tsv none = [] ∧
      ∀ (code : ℤ) (out : List Char), code ≠ 0 →
        run_tesseract_tsv (some (code, out)) = []) ∧
    (∀ r : GenResult, 400 ≤ r.status → ollama_generate_local r = Except.error r.status) ∧
    (∀ r : EmbedResult, 400 ≤ r.status → ollama_embed_local r = Except.error r.status) ∧
    (∀ r : SearchResult, r.status ≠ 404 → 400 ≤ r.status →
      qdrant_search_local r = Except.error r.status) ∧
    (∀ r : SaveResult, r.status ≠ 404 → r.status ≠ 400 → 400 ≤ r.status →
      qdrant_save_local_resp r = Except.error r.status) := by
  refine ⟨?_, ?_, ⟨rfl, ?_⟩, ?_, ?_, ?_, ?_⟩
  · intro r h
    unfold qdrant_search_local
    rw [if_pos h]
  · intro r h
    unfold qdrant_save_local_resp
    rw [if_pos h]
  · intro code out h
    show (if code ≠ 0 then [] else out) = []
    rw [if_pos h]
  · intro r h
    unfold ollama_generate_local
    rw [if_pos h]
  · intro r h
    unfold ollama_embed_local
    rw [if_pos h]
  · intro r h4 h
    unfold qdrant_search_local
    rw [if_neg h4, if_pos h]
  · intro r h4 h0 h
    unfold qdrant_save_local_resp
    rw [if_neg (by tauto), if_pos h]

/-- Witness for the amended C6 theorem at concrete statuses. -/
theorem error_handling_amended_witness :
    qdrant_search_local ⟨404, []⟩ = Except.ok 0 ∧
    qdrant_save_local_resp ⟨400⟩ = Except.ok () ∧
    run_tesseract_tsv (some (1, str "junk")) = [] ∧
    ollama_generate_local ⟨502, []⟩ = Except.error 502 ∧
    ollama_embed_local ⟨500, []⟩ = Except.error 500 ∧
    qdrant_search_local ⟨500, []⟩ = Except.error 500 ∧
    qdrant_save_local_resp ⟨503⟩ = Except.error 503 :=
  ⟨error_handling_amended.1 ⟨404, []⟩ rfl,
    error_handling_amended.2.1 ⟨400⟩ (Or.inr rfl),
    error_handling_amended.2.2.1.2 1 (str "junk") (by decide),
    error_handling_amended.2.2.2.1 ⟨502, []⟩ (by decide),
    error_handling_amended.2.2.2.2.1 ⟨500, []⟩ (by decide),
    error_handling_amended.2.2.2.2.2.1 ⟨500, []⟩ (by decide) (by decide),
    error_handling_amended.2.2.2.2.2.2 ⟨503⟩ (by decide) (by decide) (by decide)⟩

/-- Claim C10.  The store point id is `int(time.time() * 1000)` — a function
of the wall-clock time only, independent of the record content; hence two
writes that fall in the same wall-clock millisecond share the id, and with
the store's upsert-overwrite semantics the second write replaces the
first record. -/
theorem point_id_time_only (t u : ℚ) (v₁ v₂ : List ℚ) (p₁ p₂ : Payload)
    (store : ℤ → Option UpsertPoint)
    (h : pyInt (t * mkRat 1000 1) = pyInt (u * mkRat 1000 1)) :
    (qdrant_save_point t v₁ p₁).id = pyInt (t * mkRat 1000 1) ∧
    (qdrant_save_point t v₁ p₁).id = (qdrant_save_point t v₂ p₂).id ∧
    upsert (upsert store (qdrant_save_point t v₁ p₁)) (qdrant_save_point u v₂ p₂)
        (qdrant_save_point t v₁ p₁).id = some (qdrant_save_point u v₂ p₂) := by
  refine ⟨rfl, rfl, ?_⟩
  unfold upsert qdrant_save_point
  simp only
  rw [if_pos h]

/-- Witness for C10: two writes at the same millisecond. -/
theorem point_id_time_only_witness :
    pyInt (mkRat 5 1 * mkRat 1000 1) = pyInt (mkRat 5 1 * mkRat 1000 1) ∧
    ((qdrant_save_point (mkRat 5 1) [1] payload0).id =
        pyInt (mkRat 5 1 * mkRat 1000 1) ∧
      (qdrant_save_point (mkRat 5 1) [1] payload0).id =
        (qdrant_save_point (mkRat 5 1) [2] payload0).id ∧
      upsert (upsert (fun _ => none) (qdrant_save_point (mkRat 5 1) [1] payload0))
          (qdrant_save_point (mkRat 5 1) [2] payload0)
          (qdrant_save_point (mkRat 5 1) [1] payload0).id =
        some (qdrant_save_point (mkRat 5 1) [2] payload0)) :=
  ⟨rfl, point_id_time_only (mkRat 5 1) (mkRat 5 1) [1] [2] payload0 payload0
    (fun _ => none) rfl⟩

end VisionIdlePoc

namespace VisionIdlePoc

theorem pyInt_eq_floor {q : ℚ} (h : 0 ≤ q) : pyInt q = ⌊q⌋ :=
  if_pos h

theorem mkRat_two : (mkRat 2 1 : ℚ) = 2 := by
  norm_num [Rat.mkRat_eq_div]

theorem tileW_eq_div (x0 x1 : ℤ) (g : ℕ) :
    tileW x0 x1 g = ((x1 - x0 : ℤ) : ℚ) / (g : ℚ) := by
  unfold tileW
  exact Rat.mkRat_eq_div _ _

theorem tileW_nonneg {x0 x1 : ℤ} (g : ℕ) (hx : x0 ≤ x1) :
    0 ≤ tileW x0 x1 g := by
  rw [tileW_eq_div]
  apply div_nonneg
  · exact_mod_cast sub_nonneg.mpr hx
  · exact Nat.cast_nonneg g

theorem g_mul_tileW {x0 x1 : ℤ} {g : ℕ} (hg : g ≠ 0) :
    (g : ℚ) * tileW x0 x1 g = ((x1 - x0 : ℤ) : ℚ) := by
  rw [tileW_eq_div, mul_div_cancel₀]
  exact_mod_cast hg

theorem padOf_eq_floor {x0 x1 : ℤ} {g : ℕ} {f : ℚ} (hx : x0 ≤ x1) (hf : 0 ≤ f) :
    padOf x0 x1 g f = ⌊tileW x0 x1 g * f / 2⌋ := by
  unfold padOf
  rw [mkRat_two]
  exact pyInt_eq_floor (div_nonneg (mul_nonneg (tileW_nonneg g hx) hf) (by norm_num))

theorem padOf_nonneg {x0 x1 : ℤ} {g : ℕ} {f : ℚ} (hx : x0 ≤ x1) (hf : 0 ≤ f) :
    0 ≤ padOf x0 x1 g f := by
  rw [padOf_eq_floor hx hf]
  exact Int.floor_nonneg.mpr (div_nonneg (mul_nonneg (tileW_nonneg g hx) hf) (by norm_num))

theorem bndOf_eq_floor {x0 x1 : ℤ} {g : ℕ} (h0 : 0 ≤ x0) (hx : x0 ≤ x1) (c : ℕ) :
    bndOf x0 x1 g c = ⌊(x0 : ℚ) + (c : ℚ) * tileW x0 x1 g⌋ := by
  unfold bndOf
  exact pyInt_eq_floor (add_nonneg (by exact_mod_cast h0)
    (mul_nonneg (Nat.cast_nonneg c) (tileW_nonneg g hx)))

theorem bndOf_zero {x0 x1 : ℤ} {g : ℕ} (h0 : 0 ≤ x0) (hx : x0 ≤ x1) :
    bndOf x0 x1 g 0 = x0 := by
  rw [bndOf_eq_floor h0 hx]
  simp

theorem bndOf_last {x0 x1 : ℤ} {g : ℕ} (h0 : 0 ≤ x0) (hx : x0 ≤ x1) (hg : g ≠ 0) :
    bndOf x0 x1 g g = x1 := by
  rw [bndOf_eq_floor h0 hx, g_mul_tileW hg]
  push_cast
  rw [show (x0 : ℚ) + ((x1 : ℚ) - (x0 : ℚ)) = (x1 : ℚ) by ring]
  exact Int.floor_intCast x1

theorem bndOf_mono {x0 x1 : ℤ} {g : ℕ} (h0 : 0 ≤ x0) (hx : x0 ≤ x1) {c c' : ℕ}
    (h : c ≤ c') : bndOf x0 x1 g c ≤ bndOf x0 x1 g c' := by
  rw [bndOf_eq_floor h0 hx, bndOf_eq_floor h0 hx]
  apply Int.floor_mono
  have : (c : ℚ) ≤ (c' : ℚ) := by exact_mod_cast h
  have := tileW_nonneg g hx
  nlinarith

theorem int_seq_cover (a : ℕ → ℤ) :
    ∀ n : ℕ, 1 ≤ n → ∀ px : ℚ, ((a 0 : ℤ) : ℚ) ≤ px → px ≤ ((a n : ℤ) : ℚ) →
      ∃ c < n, ((a c : ℤ) : ℚ) ≤ px ∧ px ≤ ((a (c + 1) : ℤ) : ℚ) := by
  intro n
  induction n with
  | zero => intro h; exact absurd h (by omega)
  | succ m ih =>
    intro _ px h1 h2
    by_cases hm : m = 0
    · subst hm
      exact ⟨0, by omega, h1, h2⟩
    · by_cases hc : px ≤ ((a m : ℤ) : ℚ)
      · rcases ih (by omega) px h1 hc with ⟨c, hcm, hl, hr⟩
        exact ⟨c, by omega, hl, hr⟩
      · exact ⟨m, by omega, le_of_lt (not_le.mp hc), h2⟩

theorem axis_cover {x0 x1 : ℤ} {g : ℕ} (h0 : 0 ≤ x0) (hx : x0 ≤ x1) (hg : 1 ≤ g)
    {px : ℚ} (h1 : (x0 : ℚ) ≤ px) (h2 : px ≤ (x1 : ℚ)) :
    ∃ c < g, ((bndOf x0 x1 g c : ℤ) : ℚ) ≤ px ∧
      px ≤ ((bndOf x0 x1 g (c + 1) : ℤ) : ℚ) := by
  apply int_seq_cover (bndOf x0 x1 g) g hg px
  · rw [bndOf_zero h0 hx]
    exact h1
  · rw [bndOf_last h0 hx (by omega)]
    exact h2

theorem tileAt_mem {x0 y0 x1 y1 : ℤ} {g : ℕ} {f : ℚ} {r c : ℕ}
    (hr : r < g) (hc : c < g) :
    tileAt x0 y0 x1 y1 g f r c ∈ tile_roi x0 y0 x1 y1 g f := by
  unfold tile_roi
  rw [List.mem_flatMap]
  exact ⟨r, List.mem_range.mpr hr, List.mem_map.mpr ⟨c, List.mem_range.mpr hc, rfl⟩⟩

end VisionIdlePoc

namespace VisionIdlePoc

theorem pad_le_half {x0 x1 : ℤ} {g : ℕ} {f : ℚ} (hx : x0 ≤ x1) (hf0 : 0 ≤ f)
    (hf1 : f ≤ 1) : ((padOf x0 x1 g f : ℤ) : ℚ) ≤ tileW x0 x1 g / 2 := by
  rw [padOf_eq_floor hx hf0]
  have h1 : ((⌊tileW x0 x1 g * f / 2⌋ : ℤ) : ℚ) ≤ tileW x0 x1 g * f / 2 :=
    Int.floor_le _
  have htw := tileW_nonneg g hx
  nlinarith

theorem pad_le_floor_tw {x0 x1 : ℤ} {g : ℕ} {f : ℚ} (hx : x0 ≤ x1) (hf0 : 0 ≤ f)
    (hf1 : f ≤ 1) : padOf x0 x1 g f ≤ ⌊tileW x0 x1 g⌋ := by
  rw [padOf_eq_floor hx hf0]
  apply Int.floor_mono
  have htw := tileW_nonneg g hx
  nlinarith

theorem bnd_pad_le {x0 x1 : ℤ} {g : ℕ} {f : ℚ} {c : ℕ} (h0 : 0 ≤ x0) (hx : x0 ≤ x1)
    (hf0 : 0 ≤ f) (hf1 : f ≤ 1) (hc : c + 1 < g) :
    bndOf x0 x1 g (c + 1) + padOf x0 x1 g f ≤ x1 := by
  have htw := tileW_nonneg g hx
  have hg0 : g ≠ 0 := by omega
  have hmul := @g_mul_tileW x0 x1 g hg0
  have hfl : ((bndOf x0 x1 g (c + 1) : ℤ) : ℚ) ≤
      (x0 : ℚ) + ((c + 1 : ℕ) : ℚ) * tileW x0 x1 g := by
    rw [bndOf_eq_floor h0 hx]
    exact Int.floor_le _
  have hcast : ((c + 1 : ℕ) : ℚ) ≤ (g : ℚ) - 1 := by
    have h' : ((c + 2 : ℕ) : ℚ) ≤ (g : ℚ) := by exact_mod_cast hc
    push_cast at h' ⊢
    linarith
  have h3 : ((c + 1 : ℕ) : ℚ) * tileW x0 x1 g ≤ ((g : ℚ) - 1) * tileW x0 x1 g :=
    mul_le_mul_of_nonneg_right hcast htw
  have hpadle := pad_le_half (g := g) hx hf0 hf1
  have hfinal : ((bndOf x0 x1 g (c + 1) + padOf x0 x1 g f : ℤ) : ℚ) ≤ (x1 : ℚ) := by
    push_cast
    push_cast at hmul
    linarith
  exact_mod_cast hfinal

theorem bnd_pad_ge {x0 x1 : ℤ} {g : ℕ} {f : ℚ} {c : ℕ} (h0 : 0 ≤ x0) (hx : x0 ≤ x1)
    (hf0 : 0 ≤ f) (hf1 : f ≤ 1) :
    x0 ≤ bndOf x0 x1 g (c + 1) - padOf x0 x1 g f := by
  have h1 : bndOf x0 x1 g 1 ≤ bndOf x0 x1 g (c + 1) :=
    bndOf_mono h0 hx (by omega)
  have h2 : bndOf x0 x1 g 1 = x0 + ⌊tileW x0 x1 g⌋ := by
    rw [bndOf_eq_floor h0 hx]
    push_cast
    rw [one_mul, add_comm, Int.floor_add_int]
    ring
  have h3 := pad_le_floor_tw (g := g) hx hf0 hf1
  omega

theorem axis_overlap_eq {x0 x1 : ℤ} {g : ℕ} {f : ℚ} {c : ℕ} (h0 : 0 ≤ x0)
    (hx : x0 ≤ x1) (hf0 : 0 ≤ f) (hf1 : f ≤ 1) (hc : c + 1 < g) :
    min (min x1 (bndOf x0 x1 g (c + 1) + padOf x0 x1 g f))
        (min x1 (bndOf x0 x1 g (c + 2) + padOf x0 x1 g f)) -
      max (max x0 (bndOf x0 x1 g c - padOf x0 x1 g f))
        (max x0 (bndOf x0 x1 g (c + 1) - padOf x0 x1 g f)) =
      2 * padOf x0 x1 g f := by
  have hu := bnd_pad_le h0 hx hf0 hf1 hc
  have hl := bnd_pad_ge (g := g) (c := c) h0 hx hf0 hf1
  have hmono1 : bndOf x0 x1 g (c + 1) ≤ bndOf x0 x1 g (c + 2) :=
    bndOf_mono h0 hx (by omega)
  have hmono0 : bndOf x0 x1 g c ≤ bndOf x0 x1 g (c + 1) :=
    bndOf_mono h0 hx (by omega)
  have m1 : min x1 (bndOf x0 x1 g (c + 1) + padOf x0 x1 g f) =
      bndOf x0 x1 g (c + 1) + padOf x0 x1 g f := min_eq_right hu
  have m2 : bndOf x0 x1 g (c + 1) + padOf x0 x1 g f ≤
      min x1 (bndOf x0 x1 g (c + 2) + padOf x0 x1 g f) :=
    le_min hu (by omega)
  have m3 : max x0 (bndOf x0 x1 g (c + 1) - padOf x0 x1 g f) =
      bndOf x0 x1 g (c + 1) - padOf x0 x1 g f := max_eq_right hl
  have m4 : max x0 (bndOf x0 x1 g c - padOf x0 x1 g f) ≤
      bndOf x0 x1 g (c + 1) - padOf x0 x1 g f :=
    max_le hl (by omega)
  rw [m1, m3, min_eq_left m2, max_eq_right m4]
  ring

theorem two_floor_ge {v : ℚ} (h : 1 ≤ ⌊v⌋) : v ≤ ((2 * ⌊v⌋ : ℤ) : ℚ) := by
  have hfl : ((⌊v⌋ : ℤ) : ℚ) ≤ v := Int.floor_le v
  have hlt : v < ((⌊v⌋ : ℤ) : ℚ) + 1 := Int.lt_floor_add_one v
  have hcast : (1 : ℚ) ≤ ((⌊v⌋ : ℤ) : ℚ) := by exact_mod_cast h
  push_cast
  by_cases h2 : v ≤ 2
  · linarith
  · linarith

theorem axis_overlap_bound {x0 x1 : ℤ} {g : ℕ} {f : ℚ} (hx : x0 ≤ x1) (hf0 : 0 ≤ f)
    (hpad : 1 ≤ padOf x0 x1 g f) :
    f / 2 * tileW x0 x1 g ≤ ((2 * padOf x0 x1 g f : ℤ) : ℚ) := by
  rw [padOf_eq_floor hx hf0] at hpad ⊢
  have := two_floor_ge hpad
  calc f / 2 * tileW x0 x1 g = tileW x0 x1 g * f / 2 := by ring
    _ ≤ _ := this

attribute [local semireducible] Rat.add Rat.sub Rat.mul Rat.inv

/-- Counterexample for C5.  For the box `(0,0,10,10)`, grid `3` and the
default overlap fraction `f = 0.3`, the padding `int(tile_w·f/2) =
int(0.5)` truncates to zero: the first two tiles of the top row are
`(0,0,3,3)` and `(3,0,6,3)`, sharing a strip of width `0`, strictly less
than `f/2 × tileWidth = 1/2` — the claimed overlap guarantee fails. -/
theorem tile_overlap_claim_fails :
    tileAt 0 0 10 10 3 (mkRat 3 10) 0 0 ∈ tile_roi 0 0 10 10 3 (mkRat 3 10) ∧
    tileAt 0 0 10 10 3 (mkRat 3 10) 0 1 ∈ tile_roi 0 0 10 10 3 (mkRat 3 10) ∧
    tileAt 0 0 10 10 3 (mkRat 3 10) 0 0 = ⟨0, 0, 3, 3⟩ ∧
    tileAt 0 0 10 10 3 (mkRat 3 10) 0 1 = ⟨3, 0, 6, 3⟩ ∧
    xOverlap (tileAt 0 0 10 10 3 (mkRat 3 10) 0 0)
        (tileAt 0 0 10 10 3 (mkRat 3 10) 0 1) = 0 ∧
    ¬ (mkRat 3 10 / mkRat 2 1 * tileW 0 10 3 ≤ ((0 : ℤ) : ℚ)) := by
  decide

/-- Amended C5.  Tiling coverage holds as claimed: for every box with
`0 ≤ x0 ≤ x1`, `0 ≤ y0 ≤ y1`, grid `g ≥ 1` and overlap `f ≥ 0`, every
point of the box lies in some produced tile.  The claimed adjacent-overlap
bound `≥ f/2 × tileWidth` holds only when the integer padding
`int(tileWidth·f/2)` is at least 1 (and `f ≤ 1`): then horizontally and
vertically adjacent tiles overlap by `2·pad ≥ f/2 × tileWidth`.  When
`tileWidth·f/2 < 1` the padding truncates to zero and adjacent tiles can
share no strip (see the counterexample). -/
theorem tile_coverage_and_overlap :
    (∀ (x0 y0 x1 y1 : ℤ) (g : ℕ) (f px py : ℚ),
      0 ≤ x0 → x0 ≤ x1 → 0 ≤ y0 → y0 ≤ y1 → 1 ≤ g → 0 ≤ f →
      (x0 : ℚ) ≤ px → px ≤ (x1 : ℚ) → (y0 : ℚ) ≤ py → py ≤ (y1 : ℚ) →
      ∃ t ∈ tile_roi x0 y0 x1 y1 g f, tileContains t px py) ∧
    (∀ (x0 y0 x1 y1 : ℤ) (g : ℕ) (f : ℚ) (r c : ℕ),
      0 ≤ x0 → x0 ≤ x1 → 0 ≤ f → f ≤ 1 → r < g → c + 1 < g →
      1 ≤ padOf x0 x1 g f →
      f / 2 * tileW x0 x1 g ≤
        ((xOverlap (tileAt x0 y0 x1 y1 g f r c)
          (tileAt x0 y0 x1 y1 g f r (c + 1)) : ℤ) : ℚ)) ∧
    (∀ (x0 y0 x1 y1 : ℤ) (g : ℕ) (f : ℚ) (r c : ℕ),
      0 ≤ y0 → y0 ≤ y1 → 0 ≤ f → f ≤ 1 → r + 1 < g → c < g →
      1 ≤ padOf y0 y1 g f →
      f / 2 * tileW y0 y1 g ≤
        ((yOverlap (tileAt x0 y0 x1 y1 g f r c)
          (tileAt x0 y0 x1 y1 g f (r + 1) c) : ℤ) : ℚ)) := by
  refine ⟨?_, ?_, ?_⟩
  · intro x0 y0 x1 y1 g f px py h0x hx h0y hy hg hf hpx1 hpx2 hpy1 hpy2
    obtain ⟨c, hcg, hcl, hcr⟩ := axis_cover h0x hx hg hpx1 hpx2
    obtain ⟨r, hrg, hrl, hrr⟩ := axis_cover h0y hy hg hpy1 hpy2
    have hpadx := padOf_nonneg (g := g) (f := f) hx hf
    have hpady := padOf_nonneg (g := g) (f := f) hy hf
    have hpadxq : (0 : ℚ) ≤ ((padOf x0 x1 g f : ℤ) : ℚ) := by exact_mod_cast hpadx
    have hpadyq : (0 : ℚ) ≤ ((padOf y0 y1 g f : ℤ) : ℚ) := by exact_mod_cast hpady
    refine ⟨tileAt x0 y0 x1 y1 g f r c, tileAt_mem hrg hcg, ?_, ?_, ?_, ?_⟩
    · show ((max x0 (bndOf x0 x1 g c - padOf x0 x1 g f) : ℤ) : ℚ) ≤ px
      push_cast
      apply max_le hpx1
      linarith
    · show px ≤ ((min x1 (bndOf x0 x1 g (c + 1) + padOf x0 x1 g f) : ℤ) : ℚ)
      push_cast
      apply le_min hpx2
      linarith
    · show ((max y0 (bndOf y0 y1 g r - padOf y0 y1 g f) : ℤ) : ℚ) ≤ py
      push_cast
      apply max_le hpy1
      linarith
    · show py ≤ ((min y1 (bndOf y0 y1 g (r + 1) + padOf y0 y1 g f) : ℤ) : ℚ)
      push_cast
      apply le_min hpy2
      linarith
  · intro x0 y0 x1 y1 g f r c h0 hx hf0 hf1 hr hc hpad
    have heq : xOverlap (tileAt x0 y0 x1 y1 g f r c)
        (tileAt x0 y0 x1 y1 g f r (c + 1)) = 2 * padOf x0 x1 g f :=
      axis_overlap_eq h0 hx hf0 hf1 hc
    rw [heq]
    exact axis_overlap_bound hx hf0 hpad
  · intro x0 y0 x1 y1 g f r c h0 hy hf0 hf1 hr hc hpad
    have heq : yOverlap (tileAt x0 y0 x1 y1 g f r c)
        (tileAt x0 y0 x1 y1 g f (r + 1) c) = 2 * padOf y0 y1 g f :=
      axis_overlap_eq h0 hy hf0 hf1 hr
    rw [heq]
    exact axis_overlap_bound hy hf0 hpad

/-- Witness for the amended C5 theorem: coverage of the point `(5,5)` in
the counterexample box, and both overlap bounds on the box `(0,0,100,100)`
(pad `= int(100/3 · 0.15) = 5 ≥ 1`). -/
theorem tile_coverage_witness :
    (1 : ℤ) ≤ padOf 0 100 3 (mkRat 3 10) ∧
    (∃ t ∈ tile_roi 0 0 10 10 3 (mkRat 3 10),
      tileContains t (mkRat 5 1) (mkRat 5 1)) ∧
    mkRat 3 10 / 2 * tileW 0 100 3 ≤
      ((xOverlap (tileAt 0 0 100 100 3 (mkRat 3 10) 0 0)
        (tileAt 0 0 100 100 3 (mkRat 3 10) 0 1) : ℤ) : ℚ) ∧
    mkRat 3 10 / 2 * tileW 0 100 3 ≤
      ((yOverlap (tileAt 0 0 100 100 3 (mkRat 3 10) 0 0)
        (tileAt 0 0 100 100 3 (mkRat 3 10) 1 0) : ℤ) : ℚ) :=
  ⟨by decide,
    tile_coverage_and_overlap.1 0 0 10 10 3 (mkRat 3 10) (mkRat 5 1) (mkRat 5 1)
      (by decide) (by decide) (by decide) (by decide) (by decide) (by decide)
      (by decide) (by decide) (by decide) (by decide),
    tile_coverage_and_overlap.2.1 0 0 100 100 3 (mkRat 3 10) 0 0
      (by decide) (by decide) (by decide) (by decide) (by decide) (by decide)
      (by decide),
    tile_coverage_and_overlap.2.2 0 0 100 100 3 (mkRat 3 10) 0 0
      (by decide) (by decide) (by decide) (by decide) (by decide) (by decide)
      (by decide)⟩

end VisionIdlePoc
